import Mathlib

set_option maxHeartbeats 1000000

namespace CRDB

/-- Object identifiers in the catalog (Go `descpb.ID`). -/
abbrev OID := Nat

/-- One enum member of a type descriptor: physical encoding plus logical name
(Go `descpb.TypeDescriptor_EnumMember`). -/
structure EnumMember where
  physicalRepresentation : Nat
  logicalRepresentation : String
  deriving DecidableEq

/-- A draining-name record (Go `descpb.NameInfo`). -/
structure NameInfo where
  parentID : OID
  parentSchemaID : OID
  name : String
  deriving DecidableEq

/-- The type descriptor mutated by the alter-type core
(Go `sqlbase.MutableTypeDescriptor`, fields of `descpb.TypeDescriptor`). -/
structure TypeDescriptor where
  id : OID
  name : String
  parentID : OID
  parentSchemaID : OID
  arrayTypeID : OID
  enumMembers : List EnumMember
  drainingNames : List NameInfo
  version : Nat
  deriving DecidableEq

/-- Go `desc.AddDrainingName(name)`: appends a draining-name record. -/
def TypeDescriptor.addDrainingName (d : TypeDescriptor) (n : NameInfo) : TypeDescriptor :=
  { d with drainingNames := d.drainingNames ++ [n] }

/-- The pgwire error codes used by this core. -/
inductive PGCode where
  | duplicateObject
  | invalidParameterValue
  | wrongObjectType
  deriving DecidableEq

/-- Errors produced by the alter-type core and its collaborators.
`assertionFailed` models `errors.AssertionFailedf`, tagged distinctly from the
pg-coded user errors. -/
inductive Err where
  | pg (code : PGCode) (msg : String)
  | assertionFailed (msg : String)
  | objectAlreadyExists (kind : String) (collidingName : String)
  | wrapAlreadyExists (inner : Err)
  | kvError (msg : String)
  deriving DecidableEq

/-- A namespace key (parent id, parent schema id, name); Go `MakeObjectNameKey`. -/
structure NameKey where
  parentID : OID
  parentSchemaID : OID
  name : String
  deriving DecidableEq

def MakeObjectNameKey (parentID parentSchemaID : OID) (name : String) : NameKey :=
  ⟨parentID, parentSchemaID, name⟩

/-- Observable collaborator effects issued by the core, recorded in order.
`cput key value expected` is a conditional write: it succeeds only when the
key's current state matches `expected` (`none` = key absent). `validated d`
records an invocation of the post-mutation validator on descriptor `d`. -/
inductive Event where
  | wroteDesc (d : TypeDescriptor) (jobDesc : String)
  | cput (key : NameKey) (value : OID) (expected : Option OID)
  | validated (d : TypeDescriptor)
  deriving DecidableEq

/-- Result of fetching an arbitrary descriptor for collision diagnostics
(Go `catalogkv.GetAnyDescriptorByID`): enough to name the object's kind. -/
structure AnyDescriptor where
  kind : String
  name : String
  deriving DecidableEq

/-- Go `sqlbase.MakeObjectAlreadyExistsError(desc.DescriptorProto(), newName)`:
an already-exists error naming the conflicting object's kind. -/
def MakeObjectAlreadyExistsError (collidingObject : AnyDescriptor) (name : String) : Err :=
  .objectAlreadyExists collidingObject.kind name

def WrapErrorWhileConstructingObjectAlreadyExistsErr (e : Err) : Err :=
  .wrapAlreadyExists e

/-- The collaborators the core calls into (name resolver, descriptor store,
transactional batch, schema resolver, validator), modelled as oracles fixed
for the duration of one statement. `writeErr` and `cputErr` decide whether a
descriptor write or a queued conditional put fails (`none` = success). -/
structure Env where
  lookupObjectID : OID → OID → String → Except Err (Bool × OID)
  getAnyDescriptorByID : OID → Except Err AnyDescriptor
  getMutableTypeVersionByID : OID → Except Err TypeDescriptor
  findFreeArrayTypeName : OID → OID → String → Except Err String
  prepareSetSchema : TypeDescriptor → String → Except Err OID
  writeErr : TypeDescriptor → String → Option Err
  cputErr : NameKey → OID → Option Err
  validate : TypeDescriptor → Option Err

/-- The statement-local state threaded through the core: the checked-out
mutable descriptor `n.desc` plus the ordered log of collaborator effects. -/
structure PState where
  desc : TypeDescriptor
  log : List Event
  deriving DecidableEq

/-- Modelled from the spec: `writeTypeSchemaChange` (a planner method not under
src/) persists a new version of the descriptor together with an audit-facing
change description, bumping the monotonic version. Whether the underlying
write fails is decided by the environment oracle. -/
def writeTypeSchemaChange (p : Env) (desc : TypeDescriptor) (jobDesc : String) :
    Except Err TypeDescriptor :=
  match p.writeErr desc jobDesc with
  | some e => .error e
  | none => .ok { desc with version := desc.version + 1 }

/-- Go `(*planner).performRenameTypeDesc` (src/pkg/sql/alter_type.go, lines
143-170): record the old name for draining, set the new name, persist the
new version, then queue a conditional namespace insert at the new key with
expected prior state absent. Returns the result, the descriptor's final
in-memory state, and the effects issued. -/
def performRenameTypeDesc (p : Env) (desc : TypeDescriptor) (newName jobDesc : String) :
    Except Err Unit × TypeDescriptor × List Event :=
  let ni : NameInfo := ⟨desc.parentID, desc.parentSchemaID, desc.name⟩
  let d1 := desc.addDrainingName ni
  let d2 := { d1 with name := newName }
  match writeTypeSchemaChange p d2 jobDesc with
  | .error e => (.error e, d2, [])
  | .ok d3 =>
    let key := MakeObjectNameKey d3.parentID d3.parentSchemaID newName
    match p.cputErr key d3.id with
    | some e => (.error e, d3, [.wroteDesc d3 jobDesc])
    | none => (.ok (), d3, [.wroteDesc d3 jobDesc, .cput key d3.id none])

/-- Modelled from the spec: `desc.AddEnumValue` (sqlbase, not under src/)
validates uniqueness of the new logical name against all existing members and
appends the new member preserving order; the fresh physical encoding is an
implementation detail, modelled as the current length. -/
def TypeDescriptor.AddEnumValue (d : TypeDescriptor) (newVal : String) :
    Except Err TypeDescriptor :=
  if d.enumMembers.any (fun m => m.logicalRepresentation = newVal) then
    .error (.pg .duplicateObject ("enum label " ++ newVal ++ " already exists"))
  else
    .ok { d with enumMembers := d.enumMembers ++ [⟨d.enumMembers.length, newVal⟩] }

/-- Go `(*planner).addEnumValue` (lines 76-83): apply `AddEnumValue` to the
descriptor, then persist the new version. -/
def addEnumValue (p : Env) (st : PState) (newVal stmt : String) :
    Except Err Unit × PState :=
  match st.desc.AddEnumValue newVal with
  | .error e => (.error e, st)
  | .ok d =>
    match writeTypeSchemaChange p d stmt with
    | .error e => (.error e, ⟨d, st.log⟩)
    | .ok d' => (.ok (), ⟨d', st.log ++ [.wroteDesc d' stmt]⟩)

/-- Go `(*planner).renameType` (lines 85-141): collision check on the new
name, rename the base descriptor, then fetch the companion array descriptor
by `arrayTypeID` and rename it to a free derived name, strictly after the
base write. -/
def renameType (p : Env) (st : PState) (newName stmt : String) :
    Except Err Unit × PState :=
  match p.lookupObjectID st.desc.parentID st.desc.parentSchemaID newName with
  | .ok (true, i) =>
    (match p.getAnyDescriptorByID i with
     | .error e => (.error (WrapErrorWhileConstructingObjectAlreadyExistsErr e), st)
     | .ok d => (.error (MakeObjectAlreadyExistsError d newName), st))
  | .error e => (.error e, st)
  | .ok (false, _) =>
    match performRenameTypeDesc p st.desc newName stmt with
    | (.error e, d, evs) => (.error e, ⟨d, st.log ++ evs⟩)
    | (.ok _, d, evs) =>
      let st1 : PState := ⟨d, st.log ++ evs⟩
      match p.findFreeArrayTypeName st1.desc.parentID st1.desc.parentSchemaID newName with
      | .error e => (.error e, st1)
      | .ok newArrayName =>
        match p.getMutableTypeVersionByID st1.desc.arrayTypeID with
        | .error e => (.error e, st1)
        | .ok arrayDesc =>
          match performRenameTypeDesc p arrayDesc newArrayName stmt with
          | (.error e, _, evs2) => (.error e, ⟨st1.desc, st1.log ++ evs2⟩)
          | (.ok _, _, evs2) => (.ok (), ⟨st1.desc, st1.log ++ evs2⟩)

/-- The single verification pass of Go `renameTypeValue` (lines 175-193):
walk the member list carrying the current index `i` and the last index `acc`
at which `oldVal` was seen; a member equal to `newVal` that did not match
`oldVal` aborts with a duplicate-object error. -/
def renameTypeValueCheck :
    List EnumMember → String → String → Nat → Option Nat → Except Err (Option Nat)
  | [], _, _, _, acc => .ok acc
  | m :: rest, oldVal, newVal, i, acc =>
    if m.logicalRepresentation = oldVal then
      renameTypeValueCheck rest oldVal newVal (i + 1) (some i)
    else if m.logicalRepresentation = newVal then
      .error (.pg .duplicateObject ("enum label " ++ newVal ++ " already exists"))
    else
      renameTypeValueCheck rest oldVal newVal (i + 1) acc

/-- In-place update of the logical name of the member at index `i`
(Go `n.desc.EnumMembers[enumMemberIndex].LogicalRepresentation = newVal`). -/
def setLogicalRep : List EnumMember → Nat → String → List EnumMember
  | [], _, _ => []
  | m :: rest, 0, v => { m with logicalRepresentation := v } :: rest
  | m :: rest, i + 1, v => m :: setLogicalRep rest i v

/-- Go `(*planner).renameTypeValue` (lines 172-202): one verification pass,
then an invalid-parameter error if `oldVal` was not found, then the in-place
update and the persist of the new version. -/
def renameTypeValue (p : Env) (st : PState) (oldVal newVal stmt : String) :
    Except Err Unit × PState :=
  match renameTypeValueCheck st.desc.enumMembers oldVal newVal 0 none with
  | .error e => (.error e, st)
  | .ok none =>
    (.error (.pg .invalidParameterValue (oldVal ++ " is not an existing enum label")), st)
  | .ok (some i) =>
    let d := { st.desc with enumMembers := setLogicalRep st.desc.enumMembers i newVal }
    match writeTypeSchemaChange p d stmt with
    | .error e => (.error e, ⟨d, st.log⟩)
    | .ok d' => (.ok (), ⟨d', st.log ++ [.wroteDesc d' stmt]⟩)

/-- Go `(*planner).setTypeSchema` (lines 204-246): resolve the target schema;
if it is the current schema, a true no-op; otherwise record a draining name,
reparent, persist, and queue the conditional namespace insert at the new key. -/
def setTypeSchema (p : Env) (st : PState) (schema stmt : String) :
    Except Err Unit × PState :=
  let typeDesc := st.desc
  let schemaID := typeDesc.parentSchemaID
  let databaseID := typeDesc.parentID
  match p.prepareSetSchema typeDesc schema with
  | .error e => (.error e, st)
  | .ok desiredSchemaID =>
    if desiredSchemaID = schemaID then
      (.ok (), st)
    else
      let d1 := typeDesc.addDrainingName ⟨databaseID, schemaID, typeDesc.name⟩
      let d2 := { d1 with parentSchemaID := desiredSchemaID }
      match writeTypeSchemaChange p d2 stmt with
      | .error e => (.error e, ⟨d2, st.log⟩)
      | .ok d3 =>
        let newKey := MakeObjectNameKey databaseID desiredSchemaID d3.name
        match p.cputErr newKey d3.id with
        | some e => (.error e, ⟨d3, st.log ++ [.wroteDesc d3 stmt]⟩)
        | none => (.ok (), ⟨d3, st.log ++ [.wroteDesc d3 stmt, .cput newKey d3.id none]⟩)

/-- The ALTER TYPE command variants (Go `tree.AlterTypeAddValue`,
`tree.AlterTypeRenameValue`, `tree.AlterTypeRename`, `tree.AlterTypeSetSchema`);
`unknown` stands for any other command value reaching the default case. -/
inductive AlterTypeCmd where
  | addValue (newVal : String)
  | renameValue (oldVal newVal : String)
  | rename (newName : String)
  | setSchema (schema : String)
  | unknown (cmdText : String)
  deriving DecidableEq

/-- The dispatch switch of Go `(*alterTypeNode).startExec` (lines 58-69). -/
def dispatchCmd (p : Env) (st : PState) (cmd : AlterTypeCmd) (stmt : String) :
    Except Err Unit × PState :=
  match cmd with
  | .addValue v => addEnumValue p st v stmt
  | .renameValue o n => renameTypeValue p st o n stmt
  | .rename n => renameType p st n stmt
  | .setSchema s => setTypeSchema p st s stmt
  | .unknown t => (.error (.assertionFailed ("unknown alter type cmd " ++ t)), st)

/-- Go `(*alterTypeNode).startExec` (lines 56-74): dispatch on the command,
stop on an operator error, otherwise run `n.desc.Validate` on the mutated
descriptor; the `validated` event records that the validator was invoked. -/
def startExec (p : Env) (st : PState) (cmd : AlterTypeCmd) (stmt : String) :
    Except Err Unit × PState :=
  match dispatchCmd p st cmd stmt with
  | (.error e, st1) => (.error e, st1)
  | (.ok _, st1) =>
    match p.validate st1.desc with
    | some e => (.error e, ⟨st1.desc, st1.log ++ [.validated st1.desc]⟩)
    | none => (.ok (), ⟨st1.desc, st1.log ++ [.validated st1.desc]⟩)

/-! Concrete sample data used by the witness theorems. -/

def sampleDesc : TypeDescriptor :=
  ⟨1, "mytype", 10, 20, 2, [⟨0, "active"⟩, ⟨1, "inactive"⟩], [], 1⟩

def sampleArrayDesc : TypeDescriptor :=
  ⟨2, "_mytype", 10, 20, 1, [], [], 1⟩

def envOK : Env where
  lookupObjectID := fun _ _ _ => .ok (false, 0)
  getAnyDescriptorByID := fun _ => .ok ⟨"table", "t1"⟩
  getMutableTypeVersionByID := fun i =>
    if i = 2 then .ok sampleArrayDesc else .error (.kvError "descriptor not found")
  findFreeArrayTypeName := fun _ _ nn => .ok ("_" ++ nn)
  prepareSetSchema := fun d _ => .ok d.parentSchemaID
  writeErr := fun _ _ => none
  cputErr := fun _ _ => none
  validate := fun _ => none

def sampleState : PState := ⟨sampleDesc, []⟩

def envCollide : Env :=
  { envOK with lookupObjectID := fun _ _ _ => .ok (true, 7) }

def envLookupFail : Env :=
  { envOK with lookupObjectID := fun _ _ _ => .error (.kvError "lookup boom") }

/-! Helper lemmas about `performRenameTypeDesc`. -/

/-- On success, `performRenameTypeDesc` leaves the descriptor renamed with the
old name recorded for draining and the version bumped, and issues exactly the
descriptor write followed by the conditional namespace insert. -/
theorem performRenameTypeDesc_success (p : Env) (d : TypeDescriptor) (nn jd : String)
    (d' : TypeDescriptor) (evs : List Event)
    (h : performRenameTypeDesc p d nn jd = (.ok (), d', evs)) :
    d' = { d with
      name := nn
      drainingNames := d.drainingNames ++ [⟨d.parentID, d.parentSchemaID, d.name⟩]
      version := d.version + 1 } ∧
    evs = [.wroteDesc d' jd, .cput ⟨d.parentID, d.parentSchemaID, nn⟩ d.id none] := by
  simp only [performRenameTypeDesc] at h
  split at h <;> rename_i heq
  · simp at h
  · rename_i d3
    unfold writeTypeSchemaChange at heq
    split at heq
    · cases heq
    · injection heq with heq'
      subst heq'
      split at h
      · simp at h
      · simp only [MakeObjectNameKey, Prod.mk.injEq] at h
        obtain ⟨-, h1, h2⟩ := h
        subst h1
        exact ⟨rfl, h2.symm⟩

/-- In every branch, `performRenameTypeDesc` appends exactly the old
(parent, schema, name) triple to the draining names. -/
theorem performRenameTypeDesc_draining (p : Env) (d : TypeDescriptor) (nn jd : String) :
    (performRenameTypeDesc p d nn jd).2.1.drainingNames =
      d.drainingNames ++ [⟨d.parentID, d.parentSchemaID, d.name⟩] := by
  simp only [performRenameTypeDesc]
  split <;> rename_i heq
  · rfl
  · rename_i d3
    unfold writeTypeSchemaChange at heq
    split at heq
    · cases heq
    · injection heq with heq'
      subst heq'
      split <;> rfl

/-! C8 and C6, the simplest claims. -/

/-- C8: an unrecognized command variant makes `startExec` fail with an
assertion-failure error (tagged distinctly from pg-coded user errors), with
no operator run, no descriptor mutation, no queued effect and no validator
invocation: the state, event log included, is returned unchanged. -/
theorem startExec_unknown_cmd_assertion (p : Env) (st : PState) (t stmt : String) :
    startExec p st (.unknown t) stmt =
      (.error (.assertionFailed ("unknown alter type cmd " ++ t)), st) := rfl

/-- C6: when the resolved target schema id equals the descriptor's current
parent-schema id, `setTypeSchema` succeeds with zero side effects: the state
(descriptor fields and event log alike) is returned exactly unchanged. -/
theorem setTypeSchema_same_schema_noop (p : Env) (st : PState) (schema stmt : String)
    (h : p.prepareSetSchema st.desc schema = .ok st.desc.parentSchemaID) :
    setTypeSchema p st schema stmt = (.ok (), st) := by
  simp only [setTypeSchema]
  rw [h]
  simp

/-- Witness for C6 at a concrete environment and descriptor. -/
theorem setTypeSchema_same_schema_noop_witness :
    setTypeSchema envOK sampleState "public" "stmt" = (.ok (), sampleState) :=
  setTypeSchema_same_schema_noop envOK sampleState "public" "stmt" rfl

/-- C5: when the namespace lookup of (parent id, schema id, newName) reports
the key occupied, `renameType` returns an already-exists error naming the
kind of the conflicting object (fetched by the colliding id) and leaves the
state, descriptor included, exactly unchanged; when the lookup itself fails,
that error is propagated unchanged with no mutation. -/
theorem renameType_name_collision (p : Env) (st : PState) (newName stmt : String) :
    (∀ i d, p.lookupObjectID st.desc.parentID st.desc.parentSchemaID newName = .ok (true, i) →
        p.getAnyDescriptorByID i = .ok d →
        renameType p st newName stmt = (.error (.objectAlreadyExists d.kind newName), st))
    ∧ (∀ e, p.lookupObjectID st.desc.parentID st.desc.parentSchemaID newName = .error e →
        renameType p st newName stmt = (.error e, st)) := by
  constructor
  · intro i d h1 h2
    simp only [renameType, h1, h2, MakeObjectAlreadyExistsError]
  · intro e h1
    simp only [renameType, h1]

/-- Witness for C5: a concrete collision with a table named t1, and a
concrete failing lookup. -/
theorem renameType_name_collision_witness :
    renameType envCollide sampleState "t1" "stmt" =
      (.error (.objectAlreadyExists "table" "t1"), sampleState)
    ∧ renameType envLookupFail sampleState "t1" "stmt" =
      (.error (.kvError "lookup boom"), sampleState) :=
  ⟨(renameType_name_collision envCollide sampleState "t1" "stmt").1 7 ⟨"table", "t1"⟩ rfl rfl,
   (renameType_name_collision envLookupFail sampleState "t1" "stmt").2 (.kvError "lookup boom") rfl⟩

/-- C7: `startExec` succeeds only when the dispatched operator succeeded and
the subsequent validation of the mutated descriptor succeeded; if the
operator succeeds but validation fails, the validation error is returned;
if the operator fails, its error and state are returned as-is, which in
particular appends no `validated` event: validation is not invoked. -/
theorem startExec_validates_after_success (p : Env) (st : PState) (cmd : AlterTypeCmd)
    (stmt : String) :
    ((startExec p st cmd stmt).1 = .ok () →
        (dispatchCmd p st cmd stmt).1 = .ok () ∧
        p.validate (dispatchCmd p st cmd stmt).2.desc = none)
    ∧ (∀ e, (dispatchCmd p st cmd stmt).1 = .ok () →
        p.validate (dispatchCmd p st cmd stmt).2.desc = some e →
        startExec p st cmd stmt = (.error e,
          ⟨(dispatchCmd p st cmd stmt).2.desc,
           (dispatchCmd p st cmd stmt).2.log ++
             [.validated (dispatchCmd p st cmd stmt).2.desc]⟩))
    ∧ (∀ e st1, dispatchCmd p st cmd stmt = (.error e, st1) →
        startExec p st cmd stmt = (.error e, st1)) := by
  rcases hd : dispatchCmd p st cmd stmt with ⟨r, st1⟩
  cases r with
  | error e =>
    refine ⟨fun h => ?_, fun e' h1 _ => ?_, fun e' st1' h1 => ?_⟩
    · simp only [startExec, hd] at h
      simp at h
    · simp at h1
    · rw [Prod.mk.injEq] at h1
      obtain ⟨h2, h3⟩ := h1
      injection h2 with h2
      subst h2
      subst h3
      simp only [startExec, hd]
  | ok u =>
    cases u
    refine ⟨fun h => ⟨rfl, ?_⟩, fun e' h1 h2 => ?_, fun e' st1' h1 => ?_⟩
    · simp only [startExec, hd] at h
      cases hv : p.validate st1.desc with
      | some e => rw [hv] at h; simp at h
      | none => rfl
    · simp only [startExec, hd]
      dsimp only at h2
      rw [h2]
    · simp at h1

def envBadValidate : Env :=
  { envOK with validate := fun _ => some (.kvError "invalid descriptor") }

/-- Witness for C7: a concrete environment whose validator rejects the
descriptor after a successful rename-value operator, so the statement fails
with the validation error despite the operator's success. -/
theorem startExec_validates_after_success_witness :
    startExec envBadValidate sampleState (.renameValue "active" "running") "stmt" =
      (.error (.kvError "invalid descriptor"),
        ⟨(dispatchCmd envBadValidate sampleState (.renameValue "active" "running") "stmt").2.desc,
         (dispatchCmd envBadValidate sampleState (.renameValue "active" "running") "stmt").2.log ++
           [.validated (dispatchCmd envBadValidate sampleState
              (.renameValue "active" "running") "stmt").2.desc]⟩) :=
  (startExec_validates_after_success envBadValidate sampleState
      (.renameValue "active" "running") "stmt").2.1
    (.kvError "invalid descriptor") rfl rfl

/-! Lemmas about the verification pass of `renameTypeValue`. -/

/-- If `oldVal` differs from `newVal` and some member carries `newVal`, the
verification pass aborts with the duplicate-object error, whatever index
state it has accumulated. -/
theorem renameTypeValueCheck_dup (oldVal newVal : String) (hne : oldVal ≠ newVal)
    (ms : List EnumMember) :
    ∀ (i : Nat) (acc : Option Nat),
      (∃ m ∈ ms, m.logicalRepresentation = newVal) →
      renameTypeValueCheck ms oldVal newVal i acc =
        .error (.pg .duplicateObject ("enum label " ++ newVal ++ " already exists")) := by
  induction ms with
  | nil => intro i acc h; simp at h
  | cons m rest ih =>
    intro i acc h
    simp only [renameTypeValueCheck]
    by_cases h1 : m.logicalRepresentation = oldVal
    · rw [if_pos h1]
      apply ih
      obtain ⟨m', hm', he⟩ := h
      rcases List.mem_cons.mp hm' with h2 | h2
      · subst h2
        exact absurd (h1.symm.trans he) hne
      · exact ⟨m', h2, he⟩
    · rw [if_neg h1]
      by_cases h2 : m.logicalRepresentation = newVal
      · rw [if_pos h2]
      · rw [if_neg h2]
        apply ih
        obtain ⟨m', hm', he⟩ := h
        rcases List.mem_cons.mp hm' with h3 | h3
        · subst h3; exact absurd he h2
        · exact ⟨m', h3, he⟩

/-- If no member carries `oldVal` nor `newVal`, the verification pass
returns its accumulated index state untouched. -/
theorem renameTypeValueCheck_nomatch (oldVal newVal : String) (ms : List EnumMember) :
    ∀ (i : Nat) (acc : Option Nat),
      (∀ m ∈ ms, m.logicalRepresentation ≠ oldVal ∧ m.logicalRepresentation ≠ newVal) →
      renameTypeValueCheck ms oldVal newVal i acc = .ok acc := by
  induction ms with
  | nil => intro i acc _; rfl
  | cons m rest ih =>
    intro i acc h
    obtain ⟨h1, h2⟩ := h m (List.mem_cons_self m rest)
    simp only [renameTypeValueCheck, if_neg h1, if_neg h2]
    exact ih (i + 1) acc (fun m' hm' => h m' (List.mem_cons_of_mem m hm'))

/-- With a unique `oldVal` match at position `pre.length` and no other member
carrying `oldVal` or `newVal`, the verification pass returns that index. -/
theorem renameTypeValueCheck_unique (oldVal newVal : String) (mj : EnumMember)
    (hj : mj.logicalRepresentation = oldVal) (post : List EnumMember)
    (hpost : ∀ m ∈ post, m.logicalRepresentation ≠ oldVal ∧ m.logicalRepresentation ≠ newVal)
    (pre : List EnumMember) :
    ∀ i : Nat,
      (∀ m ∈ pre, m.logicalRepresentation ≠ oldVal ∧ m.logicalRepresentation ≠ newVal) →
      renameTypeValueCheck (pre ++ mj :: post) oldVal newVal i none =
        .ok (some (i + pre.length)) := by
  induction pre with
  | nil =>
    intro i _
    simp only [List.nil_append, renameTypeValueCheck, if_pos hj, List.length_nil, Nat.add_zero]
    exact renameTypeValueCheck_nomatch oldVal newVal post (i + 1) (some i) hpost
  | cons m rest ih =>
    intro i h
    obtain ⟨h1, h2⟩ := h m (List.mem_cons_self m rest)
    simp only [List.cons_append, renameTypeValueCheck, if_neg h1, if_neg h2, List.append_eq]
    rw [ih (i + 1) (fun m' hm' => h m' (List.mem_cons_of_mem m hm'))]
    simp only [List.length_cons]
    congr 2
    omega

/-- Updating the logical name at the position right after `pre` rewrites
exactly that member and nothing else. -/
theorem setLogicalRep_append (pre : List EnumMember) (mj : EnumMember)
    (post : List EnumMember) (v : String) :
    setLogicalRep (pre ++ mj :: post) pre.length v =
      pre ++ { mj with logicalRepresentation := v } :: post := by
  induction pre with
  | nil => rfl
  | cons m rest ih =>
    simp only [List.cons_append, List.length_cons, setLogicalRep, List.append_eq, ih]

/-- Identity-rename invariant of the verification pass: with `oldVal = newVal
= v`, the pass never errors, and any index it returns points at a member
already carrying `v`, so rewriting there is the identity on the list. -/
theorem renameTypeValueCheck_self (v : String) (full : List EnumMember) :
    ∀ (suf pre : List EnumMember) (acc : Option Nat),
      full = pre ++ suf →
      (∀ j, acc = some j → setLogicalRep full j v = full) →
      ∃ r, renameTypeValueCheck suf v v pre.length acc = .ok r ∧
        (∀ j, r = some j → setLogicalRep full j v = full) ∧
        ((acc.isSome = true ∨ suf.any (fun m => m.logicalRepresentation = v) = true) →
          r.isSome = true) := by
  intro suf
  induction suf with
  | nil =>
    intro pre acc hfull hacc
    refine ⟨acc, rfl, hacc, ?_⟩
    rintro (h | h)
    · exact h
    · simp at h
  | cons m rest ih =>
    intro pre acc hfull hacc
    by_cases h1 : m.logicalRepresentation = v
    · have hfull' : full = (pre ++ [m]) ++ rest := by rw [hfull, List.append_assoc]; rfl
      have hacc' : ∀ j, (some pre.length : Option Nat) = some j →
          setLogicalRep full j v = full := by
        intro j hjv
        injection hjv with hjv
        subst hjv
        rw [hfull, setLogicalRep_append, ← h1]
      obtain ⟨r, hr, hinv, hsome⟩ := ih (pre ++ [m]) (some pre.length) hfull' hacc'
      refine ⟨r, ?_, hinv, fun _ => hsome (Or.inl rfl)⟩
      have hlen : (pre ++ [m]).length = pre.length + 1 := by simp
      rw [hlen] at hr
      simp only [renameTypeValueCheck, if_pos h1]
      exact hr
    · have hfull' : full = (pre ++ [m]) ++ rest := by rw [hfull, List.append_assoc]; rfl
      obtain ⟨r, hr, hinv, hsome⟩ := ih (pre ++ [m]) acc hfull' hacc
      refine ⟨r, ?_, hinv, ?_⟩
      · have hlen : (pre ++ [m]).length = pre.length + 1 := by simp
        rw [hlen] at hr
        simp only [renameTypeValueCheck, if_neg h1]
        exact hr
      · rintro (h | h)
        · exact hsome (Or.inl h)
        · simp only [List.any_cons, Bool.or_eq_true, decide_eq_true_eq] at h
          rcases h with h | h
          · exact absurd h h1
          · exact hsome (Or.inr h)

/-! C2 (corrected), C3, C4 and C10. -/

/-- C2 as frozen is false on the code: with members [a, b, c] and the
identity pair (oldVal, newVal) = ("a", "a"), some member's logical name
equals `newVal`, yet `renameTypeValue` succeeds instead of failing with
DuplicateObject, because the member matching `oldVal` is excluded from the
duplicate-name check. -/
theorem renameTypeValue_duplicate_claim_counterexample :
    (∃ m ∈ (⟨⟨1, "status", 10, 20, 2, [⟨0, "a"⟩, ⟨1, "b"⟩, ⟨2, "c"⟩], [], 1⟩,
        ([] : List Event)⟩ : PState).desc.enumMembers, m.logicalRepresentation = "a") ∧
    (renameTypeValue envOK
        ⟨⟨1, "status", 10, 20, 2, [⟨0, "a"⟩, ⟨1, "b"⟩, ⟨2, "c"⟩], [], 1⟩, []⟩
        "a" "a" "stmt").1 = .ok () :=
  ⟨⟨⟨0, "a"⟩, by decide, rfl⟩, rfl⟩

/-- C2 (amended): when `oldVal` differs from `newVal` and some member's
logical name equals `newVal`, `renameTypeValue` fails with a DuplicateObject
error and the state — member list, all other descriptor fields and the event
log — is returned exactly unchanged. -/
theorem renameTypeValue_duplicate_newVal_fails (p : Env) (st : PState)
    (oldVal newVal stmt : String) (hne : oldVal ≠ newVal)
    (h : ∃ m ∈ st.desc.enumMembers, m.logicalRepresentation = newVal) :
    renameTypeValue p st oldVal newVal stmt =
      (.error (.pg .duplicateObject ("enum label " ++ newVal ++ " already exists")), st) := by
  simp only [renameTypeValue,
    renameTypeValueCheck_dup oldVal newVal hne st.desc.enumMembers 0 none h]

def sampleStateABC : PState :=
  ⟨⟨1, "status", 10, 20, 2, [⟨0, "a"⟩, ⟨1, "b"⟩, ⟨2, "c"⟩], [], 1⟩, []⟩

/-- Witness for C2 (amended): on members [a, b, c], renaming "a" to "b"
fails with DuplicateObject and leaves the state unchanged. -/
theorem renameTypeValue_duplicate_newVal_fails_witness :
    renameTypeValue envOK sampleStateABC "a" "b" "stmt" =
      (.error (.pg .duplicateObject "enum label b already exists"), sampleStateABC) :=
  renameTypeValue_duplicate_newVal_fails envOK sampleStateABC "a" "b" "stmt"
    (by decide) ⟨⟨1, "b"⟩, by decide, rfl⟩

/-- C3: when no member's logical name equals `oldVal` and none equals
`newVal`, `renameTypeValue` fails with an InvalidParameterValue error and the
state — member list included — is returned exactly unchanged. -/
theorem renameTypeValue_missing_oldVal_fails (p : Env) (st : PState)
    (oldVal newVal stmt : String)
    (h : ∀ m ∈ st.desc.enumMembers,
      m.logicalRepresentation ≠ oldVal ∧ m.logicalRepresentation ≠ newVal) :
    renameTypeValue p st oldVal newVal stmt =
      (.error (.pg .invalidParameterValue (oldVal ++ " is not an existing enum label")), st) := by
  simp only [renameTypeValue,
    renameTypeValueCheck_nomatch oldVal newVal st.desc.enumMembers 0 none h]

def sampleStateAB : PState :=
  ⟨⟨1, "status", 10, 20, 2, [⟨0, "a"⟩, ⟨1, "b"⟩], [], 1⟩, []⟩

/-- Witness for C3: on members [a, b], renaming "z" to "y" fails with
InvalidParameterValue and leaves the state unchanged. -/
theorem renameTypeValue_missing_oldVal_fails_witness :
    renameTypeValue envOK sampleStateAB "z" "y" "stmt" =
      (.error (.pg .invalidParameterValue "z is not an existing enum label"), sampleStateAB) :=
  renameTypeValue_missing_oldVal_fails envOK sampleStateAB "z" "y" "stmt" (by decide)

/-- C4: when exactly one member carries `oldVal` (decomposed as
pre ++ [mj] ++ post with every other member carrying neither `oldVal` nor
`newVal`) and the call succeeds, the matching member's logical name is
updated in place — same position, same physical encoding, every other member
and the list length unchanged — and the new version is persisted, recorded
as the descriptor write in the log. -/
theorem renameTypeValue_success_updates_in_place (p : Env) (st : PState)
    (oldVal newVal stmt : String) (pre post : List EnumMember) (mj : EnumMember)
    (hsplit : st.desc.enumMembers = pre ++ mj :: post)
    (hj : mj.logicalRepresentation = oldVal)
    (hpre : ∀ m ∈ pre, m.logicalRepresentation ≠ oldVal ∧ m.logicalRepresentation ≠ newVal)
    (hpost : ∀ m ∈ post, m.logicalRepresentation ≠ oldVal ∧ m.logicalRepresentation ≠ newVal)
    (st' : PState) (h : renameTypeValue p st oldVal newVal stmt = (.ok (), st')) :
    st'.desc = { st.desc with
      enumMembers := pre ++ { mj with logicalRepresentation := newVal } :: post
      version := st.desc.version + 1 } ∧
    st'.log = st.log ++ [.wroteDesc st'.desc stmt] := by
  have hc : renameTypeValueCheck st.desc.enumMembers oldVal newVal 0 none =
      .ok (some pre.length) := by
    rw [hsplit]
    simpa using renameTypeValueCheck_unique oldVal newVal mj hj post hpost pre 0 hpre
  simp only [renameTypeValue, hc] at h
  have hset : setLogicalRep st.desc.enumMembers pre.length newVal =
      pre ++ { mj with logicalRepresentation := newVal } :: post := by
    rw [hsplit, setLogicalRep_append]
  rw [hset] at h
  split at h <;> rename_i heq
  · simp at h
  · rename_i d3
    unfold writeTypeSchemaChange at heq
    split at heq
    · cases heq
    · injection heq with heq'
      subst heq'
      simp only [Prod.mk.injEq] at h
      obtain ⟨-, h1⟩ := h
      subst h1
      exact ⟨rfl, rfl⟩

/-- Witness for C4: type status with members [active, inactive]; renaming
"inactive" to "disabled" succeeds, yielding [active, disabled] in place with
the version bumped and the write logged. -/
theorem renameTypeValue_success_updates_in_place_witness :
    ((renameTypeValue envOK sampleState "inactive" "disabled" "stmt").2).desc =
      { sampleState.desc with
        enumMembers := [⟨0, "active"⟩] ++ ⟨1, "disabled"⟩ :: []
        version := sampleState.desc.version + 1 } ∧
    ((renameTypeValue envOK sampleState "inactive" "disabled" "stmt").2).log =
      sampleState.log ++
        [.wroteDesc ((renameTypeValue envOK sampleState "inactive" "disabled" "stmt").2).desc
          "stmt"] :=
  renameTypeValue_success_updates_in_place envOK sampleState "inactive" "disabled" "stmt"
    [⟨0, "active"⟩] [] ⟨1, "inactive"⟩ rfl rfl (by decide) (by decide)
    (renameTypeValue envOK sampleState "inactive" "disabled" "stmt").2 rfl

/-- C10: renaming a label to itself passes the verification phase — the
matched member is excluded from the duplicate-name check, so the pass returns
an index rather than an error — and the ordered member list in the resulting
state equals the prior list exactly. -/
theorem renameTypeValue_identity_rename (p : Env) (st : PState) (v stmt : String)
    (h : ∃ m ∈ st.desc.enumMembers, m.logicalRepresentation = v) :
    (∃ j, renameTypeValueCheck st.desc.enumMembers v v 0 none = .ok (some j)) ∧
    ((renameTypeValue p st v v stmt).2).desc.enumMembers = st.desc.enumMembers := by
  obtain ⟨r, hr, hinv, hsome⟩ :=
    renameTypeValueCheck_self v st.desc.enumMembers st.desc.enumMembers [] none rfl
      (by intro j hj; cases hj)
  simp only [List.length_nil] at hr
  have hany : st.desc.enumMembers.any (fun m => m.logicalRepresentation = v) = true := by
    obtain ⟨m, hm, he⟩ := h
    exact List.any_eq_true.mpr ⟨m, hm, by simp [he]⟩
  obtain ⟨j, hj⟩ := Option.isSome_iff_exists.mp (hsome (Or.inr hany))
  subst hj
  have hfix := hinv j rfl
  refine ⟨⟨j, hr⟩, ?_⟩
  simp only [renameTypeValue, hr, hfix]
  split <;> rename_i heq
  · rfl
  · rename_i d3
    unfold writeTypeSchemaChange at heq
    split at heq
    · cases heq
    · injection heq with heq'
      subst heq'
      rfl

/-- Witness for C10: renaming "active" to itself on status [active, inactive]
passes the checks and leaves the member list identical. -/
theorem renameTypeValue_identity_rename_witness :
    (∃ j, renameTypeValueCheck sampleState.desc.enumMembers "active" "active" 0 none =
        .ok (some j)) ∧
    ((renameTypeValue envOK sampleState "active" "active" "stmt").2).desc.enumMembers =
      sampleState.desc.enumMembers :=
  renameTypeValue_identity_rename envOK sampleState "active" "stmt"
    ⟨⟨0, "active"⟩, by decide, rfl⟩

/-- A successful descriptor write returns the descriptor with only the
version bumped. -/
theorem writeTypeSchemaChange_ok_fields (p : Env) (d d' : TypeDescriptor) (jd : String)
    (h : writeTypeSchemaChange p d jd = .ok d') :
    d' = { d with version := d.version + 1 } := by
  unfold writeTypeSchemaChange at h
  split at h
  · cases h
  · injection h with h
    exact h.symm

/-- C1: a successful `renameType` renames both linked descriptors in order.
The base descriptor records its old (parent id, schema id, name) as a
draining name, takes the new name with a bumped persisted version, and a
conditional namespace insert (expected prior state: absent) is queued at the
new key; then the companion array descriptor, fetched by the base
descriptor's array-type id, undergoes the same four steps with the derived
free array name, strictly after the base write in the effect log. -/
theorem renameType_success_renames_base_then_array (p : Env) (st : PState)
    (newName stmt : String) (st' : PState)
    (h : renameType p st newName stmt = (.ok (), st')) :
    ∃ arrayName arrayDesc,
      p.findFreeArrayTypeName st.desc.parentID st.desc.parentSchemaID newName =
        .ok arrayName ∧
      p.getMutableTypeVersionByID st.desc.arrayTypeID = .ok arrayDesc ∧
      st'.desc = { st.desc with
        name := newName
        drainingNames := st.desc.drainingNames ++
          [⟨st.desc.parentID, st.desc.parentSchemaID, st.desc.name⟩]
        version := st.desc.version + 1 } ∧
      st'.log = st.log ++
        [.wroteDesc st'.desc stmt,
         .cput ⟨st.desc.parentID, st.desc.parentSchemaID, newName⟩ st.desc.id none,
         .wroteDesc { arrayDesc with
           name := arrayName
           drainingNames := arrayDesc.drainingNames ++
             [⟨arrayDesc.parentID, arrayDesc.parentSchemaID, arrayDesc.name⟩]
           version := arrayDesc.version + 1 } stmt,
         .cput ⟨arrayDesc.parentID, arrayDesc.parentSchemaID, arrayName⟩
           arrayDesc.id none] := by
  simp only [renameType] at h
  split at h
  · split at h <;> simp at h
  · simp at h
  · split at h <;> rename_i heq1
    · simp at h
    · rename_i a d evs
      cases a
      obtain ⟨hd, hevs⟩ := performRenameTypeDesc_success p st.desc newName stmt d evs heq1
      subst hd
      split at h <;> rename_i heq2
      · simp at h
      · rename_i arrayName
        split at h <;> rename_i heq3
        · simp at h
        · rename_i arrayDesc
          split at h <;> rename_i heq4
          · simp at h
          · rename_i a2 fst evs2
            cases a2
            obtain ⟨hfst, hevs2⟩ :=
              performRenameTypeDesc_success p arrayDesc arrayName stmt fst evs2 heq4
            subst hfst
            simp only [Prod.mk.injEq] at h
            obtain ⟨-, h1⟩ := h
            subst h1
            refine ⟨arrayName, arrayDesc, heq2, heq3, rfl, ?_⟩
            rw [hevs, hevs2]
            simp [List.append_assoc]

/-- Witness for C1: a concrete successful rename of `mytype` to `t2`,
carrying its companion array type along to `_t2`. -/
theorem renameType_success_renames_base_then_array_witness :
    ∃ arrayName arrayDesc,
      envOK.findFreeArrayTypeName sampleState.desc.parentID
          sampleState.desc.parentSchemaID "t2" = .ok arrayName ∧
      envOK.getMutableTypeVersionByID sampleState.desc.arrayTypeID = .ok arrayDesc ∧
      ((renameType envOK sampleState "t2" "stmt").2).desc = { sampleState.desc with
        name := "t2"
        drainingNames := sampleState.desc.drainingNames ++
          [⟨sampleState.desc.parentID, sampleState.desc.parentSchemaID,
            sampleState.desc.name⟩]
        version := sampleState.desc.version + 1 } ∧
      ((renameType envOK sampleState "t2" "stmt").2).log = sampleState.log ++
        [.wroteDesc ((renameType envOK sampleState "t2" "stmt").2).desc "stmt",
         .cput ⟨sampleState.desc.parentID, sampleState.desc.parentSchemaID, "t2"⟩
           sampleState.desc.id none,
         .wroteDesc { arrayDesc with
           name := arrayName
           drainingNames := arrayDesc.drainingNames ++
             [⟨arrayDesc.parentID, arrayDesc.parentSchemaID, arrayDesc.name⟩]
           version := arrayDesc.version + 1 } "stmt",
         .cput ⟨arrayDesc.parentID, arrayDesc.parentSchemaID, arrayName⟩
           arrayDesc.id none] :=
  renameType_success_renames_base_then_array envOK sampleState "t2" "stmt"
    (renameType envOK sampleState "t2" "stmt").2 rfl

/-- C9: no operation of this core ever removes or clears a draining name.
For each of the four operations, whatever the outcome, the draining names of
the state's descriptor afterwards are the prior list extended on the right —
hence a superset; and `performRenameTypeDesc`, the function through which
the companion array descriptor is mutated during a rename, likewise only
appends to the draining names of whichever descriptor it is handed. -/
theorem drainingNames_never_removed (p : Env) (st : PState) (d : TypeDescriptor)
    (v oldV newV newName schema stmt : String) :
    (∃ ex, ((addEnumValue p st v stmt).2).desc.drainingNames =
        st.desc.drainingNames ++ ex) ∧
    (∃ ex, ((renameTypeValue p st oldV newV stmt).2).desc.drainingNames =
        st.desc.drainingNames ++ ex) ∧
    (∃ ex, ((renameType p st newName stmt).2).desc.drainingNames =
        st.desc.drainingNames ++ ex) ∧
    (∃ ex, ((setTypeSchema p st schema stmt).2).desc.drainingNames =
        st.desc.drainingNames ++ ex) ∧
    (∃ ex, (performRenameTypeDesc p d newName stmt).2.1.drainingNames =
        d.drainingNames ++ ex) := by
  refine ⟨?_, ?_, ?_, ?_, ⟨_, performRenameTypeDesc_draining p d newName stmt⟩⟩
  · simp only [addEnumValue]
    split <;> rename_i heq
    · exact ⟨[], by simp⟩
    · rename_i d1
      unfold TypeDescriptor.AddEnumValue at heq
      split at heq
      · cases heq
      · injection heq with heq
        subst heq
        split <;> rename_i heq2
        · exact ⟨[], by simp⟩
        · rename_i d2
          rw [writeTypeSchemaChange_ok_fields p _ d2 stmt heq2]
          exact ⟨[], by simp⟩
  · simp only [renameTypeValue]
    split
    · exact ⟨[], by simp⟩
    · exact ⟨[], by simp⟩
    · split <;> rename_i heq2
      · exact ⟨[], by simp⟩
      · rename_i d2
        rw [writeTypeSchemaChange_ok_fields p _ d2 stmt heq2]
        exact ⟨[], by simp⟩
  · simp only [renameType]
    split
    · split
      · exact ⟨[], by simp⟩
      · exact ⟨[], by simp⟩
    · exact ⟨[], by simp⟩
    · split <;> rename_i heq1
      · rename_i e d1 evs
        have hd := performRenameTypeDesc_draining p st.desc newName stmt
        rw [heq1] at hd
        exact ⟨_, hd⟩
      · rename_i a d1 evs
        have hd := performRenameTypeDesc_draining p st.desc newName stmt
        rw [heq1] at hd
        split
        · exact ⟨_, hd⟩
        · split
          · exact ⟨_, hd⟩
          · split
            · exact ⟨_, hd⟩
            · exact ⟨_, hd⟩
  · simp only [setTypeSchema, TypeDescriptor.addDrainingName]
    split
    · exact ⟨[], by simp⟩
    · split
      · exact ⟨[], by simp⟩
      · split <;> rename_i heq2
        · exact ⟨_, rfl⟩
        · rename_i d3
          rw [writeTypeSchemaChange_ok_fields p _ d3 stmt heq2]
          split
          · exact ⟨_, rfl⟩
          · exact ⟨_, rfl⟩

end CRDB
